import Mathlib

/-!
# Verification of the `build-your-own` HTTP/1.1 framing layer

Shallow embedding of the TypeScript sources:
* `src/unnamed/part_000` — the dynamic buffer (`DynBuf`, `bufPush`, `bufPop`);
* `src/webserver/utils/file-generator.ts` (second part) — the promise-based
  socket wrapper (`TCPConn`, `soInit`, `soRead`);
* `src/webserver/exercises/basic-http.ts` — the HTTP server: framer
  (`cutMessage`, `parseHTTPReq`), header lookup (`fieldGet`), body readers
  (`readerFromMemory`, `readerFromConnLength`, `readerFromReq`), the chunked
  codec (`readChunks` decoder, `writeHTTPResp` encoder side) and the
  connection loop (`serveClient`).

Conventions:
* A byte is a `Nat` (< 256 for real inputs; `latin1` decoding maps byte `b`
  to character code `b`, so JS strings obtained via `toString("latin1")` are
  represented by the same byte lists).
* The stream of socket `data` events is a `List (List Nat)`; exhaustion of
  the list is end-of-stream (`soRead` then yields an empty buffer, which the
  server code treats as EOF).  An explicit `[]` element is likewise treated
  as an EOF signal by the readers, mirroring `data.length === 0` checks.
* JS functions that `throw` are embedded with `Except Err`.
* Recursions that are loops in the source carry explicit fuel so that all
  definitions compute by kernel reduction; wrappers instantiate the fuel
  with a provably sufficient amount.
-/

namespace BuildYourOwn

/-- Errors thrown by the source.  `httpError` is the `HTTPError` class
(status code plus message, both copied verbatim from the source);
`jsError` covers plain `Error`/`TypeError` throws. -/
inductive Err
  | httpError (code : Nat) (msg : String)
  | jsError (msg : String)
  deriving DecidableEq, Repr

/-- Character codes of a string literal — used to write byte-list constants
for ASCII strings (matching `latin1` bytes). -/
def strB (s : String) : List Nat := s.toList.map Char.toNat

/-! ## Byte-level helpers shared by the embedding -/

/-- Index of the first occurrence of `"\r\n"` (bytes 13,10), as in
`buf.indexOf("\r\n")` over the unconsumed region; `none` for `-1`. -/
def crlfIdx : List Nat → Option Nat
  | [] => none
  | [_] => none
  | c1 :: c2 :: rest =>
    if c1 = 13 ∧ c2 = 10 then some 0
    else (crlfIdx (c2 :: rest)).map (· + 1)

/-- Index of the first occurrence of `"\r\n\r\n"`, as in
`buf.indexOf("\r\n\r\n")`; `none` for `-1`. -/
def crlf2Idx : List Nat → Option Nat
  | [] => none
  | [_] => none
  | [_, _] => none
  | [_, _, _] => none
  | c1 :: c2 :: c3 :: c4 :: rest =>
    if c1 = 13 ∧ c2 = 10 ∧ c3 = 13 ∧ c4 = 10 then some 0
    else (crlf2Idx (c2 :: c3 :: c4 :: rest)).map (· + 1)

/-- Index of the first occurrence of a single byte, as in `buf.indexOf(c)`. -/
def byteIdx (sep : Nat) : List Nat → Option Nat
  | [] => none
  | c :: rest => if c = sep then some 0 else (byteIdx sep rest).map (· + 1)

/-- `'0' <= c <= '9' || 'a' <= c <= 'f' || 'A' <= c <= 'F'` from `isHex`. -/
def isHexDigit (c : Nat) : Bool :=
  (48 ≤ c && c ≤ 57) || (97 ≤ c && c ≤ 102) || (65 ≤ c && c ≤ 70)

/-- `isHex`: every character of the string is a hex digit (vacuously true
for the empty string, as in the source's `for` loop). -/
def isHexB (s : List Nat) : Bool := s.all isHexDigit

/-- `'0' <= ch <= '9'` from `parseDec`. -/
def isDigitB (c : Nat) : Bool := 48 ≤ c && c ≤ 57

/-- Numeric value of a hex-digit character code. -/
def hexVal (c : Nat) : Nat :=
  if c ≤ 57 then c - 48 else if c ≤ 70 then c - 55 else c - 87

/-- `parseInt(s, 16)` restricted to the call site: the source only calls it
after `isHex(s)` succeeded.  `parseInt("", 16)` is `NaN`, embedded as
`none`. -/
def parseHexJs (s : List Nat) : Option Nat :=
  if s = [] then none
  else some (s.foldl (fun a c => a * 16 + hexVal c) 0)

/-- `parseDec`: reject any non-digit character (also the empty string, for
which `parseInt("", 10)` is `NaN`); otherwise the base-10 value.  `none`
embeds `NaN`. -/
def parseDec (s : List Nat) : Option Nat :=
  if s ≠ [] ∧ s.all isDigitB then
    some (s.foldl (fun a c => a * 10 + (c - 48)) 0)
  else none

/-- `n.toString(16)` for a natural number: lowercase hex digits, no padding,
`"0"` for zero.  Fuel-driven; `hexStr` supplies sufficient fuel. -/
def hexDigitChar (d : Nat) : Nat := if d < 10 then 48 + d else 87 + d

def hexStrF : Nat → Nat → List Nat
  | 0, n => [hexDigitChar (n % 16)]
  | f + 1, n =>
    if n < 16 then [hexDigitChar n]
    else hexStrF f (n / 16) ++ [hexDigitChar (n % 16)]

def hexStr (n : Nat) : List Nat := hexStrF n n

/-- JS `String.prototype.toLowerCase` on a latin1 character code: `A`–`Z`
and `À`–`Þ` (except `×`, 215) map down by 32; everything else is fixed. -/
def latinToLower (c : Nat) : Nat :=
  if (65 ≤ c ∧ c ≤ 90) ∨ (192 ≤ c ∧ c ≤ 222 ∧ c ≠ 215) then c + 32 else c

/-- JS whitespace recognised by `String.prototype.trim` within the latin1
range: tab, LF, VT, FF, CR, space, no-break space. -/
def isJsSpace (c : Nat) : Bool :=
  c = 9 || c = 10 || c = 11 || c = 12 || c = 13 || c = 32 || c = 160

/-- `s.trim()`. -/
def trimBytes (l : List Nat) : List Nat :=
  ((l.dropWhile isJsSpace).reverse.dropWhile isJsSpace).reverse

/-- `Buffer.from(str)` UTF-8-encodes a JS string; for a string whose
character codes are latin1 (≤ 255) each code < 128 is one byte and each
code ≥ 128 becomes two bytes. -/
def utf8OfLatin1 (l : List Nat) : List Nat :=
  (l.map (fun c => if c < 128 then [c] else [192 + c / 64, 128 + c % 64])).flatten

/-- `str.split(sep)` for a single-character separator, on byte lists.
Always returns at least one (possibly empty) part. -/
def splitOnByte (sep : Nat) : List Nat → List (List Nat)
  | [] => [[]]
  | c :: rest =>
    match splitOnByte sep rest with
    | [] => [[c]]
    | g :: gs => if c = sep then [] :: g :: gs else (c :: g) :: gs

/-! ## Dynamic buffer (`src/unnamed/part_000`)

`DynBuf` is modelled at storage level: `data` is the whole backing store
(its list length is the capacity) and `length` the number of live bytes at
its front. -/

structure DynBuf where
  data : List Nat
  length : Nat
  deriving DecidableEq, Repr

/-- `{ data: Buffer.alloc(0), length: 0 }`, the per-connection initial
buffer. -/
def emptyBuf : DynBuf := ⟨[], 0⟩

/-- The capacity-doubling loop `while (cap < newLen) cap *= 2`.  Fuel-driven
(`growCap` supplies fuel `newLen`, sufficient whenever `1 ≤ cap`; the source
only runs the loop from `cap = max(oldCap, 32) ≥ 32`). -/
def growCapF : Nat → Nat → Nat → Nat
  | 0, cap, _ => cap
  | f + 1, cap, n => if cap < n then growCapF f (cap * 2) n else cap

def growCap (cap n : Nat) : Nat := growCapF n cap n

/-- `src.copy(dst, off, 0)`: overwrite `dst` from offset `off` with `src`,
truncated at the end of `dst` (a `Buffer.copy` never grows the target). -/
def writeAt (st : List Nat) (off : Nat) (d : List Nat) : List Nat :=
  st.take off ++ d.take (st.length - off) ++ st.drop (off + d.length)

/-- `bufPush(buf, data)`: grow the storage to
`growCap(max(cap,32), newLen)` zero-filled bytes when needed (copying the
whole old storage to offset 0), then copy `data` at offset `length` and set
`length := newLen`. -/
def bufPush (b : DynBuf) (d : List Nat) : DynBuf :=
  let newLen := b.length + d.length
  let st :=
    if b.data.length < newLen then
      b.data ++ List.replicate (growCap (max b.data.length 32) newLen - b.data.length) 0
    else b.data
  { data := writeAt st b.length d, length := newLen }

/-- `bufPop(buf, len)`: `copyWithin(0, len, buf.length)` then
`length -= len` (callers only pop `len ≤ length`). -/
def bufPop (b : DynBuf) (n : Nat) : DynBuf :=
  { data := writeAt b.data 0 ((b.data.take b.length).drop n),
    length := b.length - n }

/-- A client-visible buffer operation. -/
inductive BufOp
  | push (d : List Nat)
  | pop (n : Nat)
  deriving DecidableEq, Repr

def applyOp (b : DynBuf) : BufOp → DynBuf
  | .push d => bufPush b d
  | .pop n => bufPop b n

def applyOps (b : DynBuf) (ops : List BufOp) : DynBuf := ops.foldl applyOp b

/-- Validity of an operation sequence: every `pop n` pops at most the
current live length (as all call sites in the source do). -/
def validOpsB (b : DynBuf) : List BufOp → Bool
  | [] => true
  | .push d :: rest => validOpsB (bufPush b d) rest
  | .pop n :: rest => decide (n ≤ b.length) && validOpsB (bufPop b n) rest

/-- Reference queue semantics of the live bytes: push appends, pop drops
from the front. -/
def queueModel (q : List Nat) : List BufOp → List Nat
  | [] => q
  | .push d :: rest => queueModel (q ++ d) rest
  | .pop n :: rest => queueModel (q.drop n) rest

/-- The storage-level invariant tying a `DynBuf` to its abstract queue of
live bytes: the live region (`take length`) is exactly the queue, it fits
in the storage, and the capacity is 0 (never grown) or `32 * 2 ^ k`. -/
def bufInv (b : DynBuf) (q : List Nat) : Prop :=
  b.length = q.length ∧ b.data.take b.length = q ∧
  b.length ≤ b.data.length ∧
  (b.data.length = 0 ∨ ∃ k, b.data.length = 32 * 2 ^ k)

/-! ## Socket wrapper (`soInit` / `soRead`)

State of a `TCPConn`.  `reader` holds the identity of the pending read's
promise callbacks (`null` = `none`).  `console.assert` in Node never
aborts: it only logs, which the model records in `assertFailures`. -/

structure TCPConn where
  err : Bool
  ended : Bool
  reader : Option Nat
  assertFailures : Nat
  deriving DecidableEq, Repr

/-- Fresh wrapper from `soInit`: no error, not ended, no pending reader. -/
def soInit : TCPConn := ⟨false, false, none, 0⟩

/-- Result of a `soRead` call: the returned promise is immediately rejected
(`conn.err`), immediately resolved with an empty buffer (`conn.ended`), or
left pending with its callbacks installed in `conn.reader`. -/
inductive SoReadRes
  | rejected
  | resolvedEOF
  | pending
  deriving DecidableEq, Repr

/-- `soRead(conn)`: `console.assert(!conn.reader)` (a log, not an abort),
then reject on a stored error, resolve empty on EOF, else install the new
promise's callbacks — overwriting any previous ones. -/
def soRead (c : TCPConn) (promiseId : Nat) : SoReadRes × TCPConn :=
  let c1 := { c with
    assertFailures := c.assertFailures + (if c.reader.isSome then 1 else 0) }
  if c1.err then (.rejected, c1)
  else if c1.ended then (.resolvedEOF, c1)
  else (.pending, { c1 with reader := some promiseId })

/-- The socket's `data` listener: assert a reader is installed (log
otherwise), pause, resolve the pending read, clear `reader`. -/
def onData (c : TCPConn) : TCPConn :=
  { c with
    assertFailures := c.assertFailures + (if c.reader.isNone then 1 else 0),
    reader := none }

/-- The `end` listener: mark EOF and resolve any pending read. -/
def onEnd (c : TCPConn) : TCPConn := { c with ended := true, reader := none }

/-- The `error` listener: store the error and reject any pending read. -/
def onError (c : TCPConn) : TCPConn := { c with err := true, reader := none }

/-! ## HTTP head parsing (`basic-http.ts`)

From here on the shared `DynBuf` is represented by its live-byte view (the
list `buf.data.take buf.length`): `bufPush` appends and `bufPop` drops from
the front of that view (proved against the storage model in the `DynBuf`
theorems below), so the protocol layer is stated over plain byte lists. -/

/-- `fieldGet`'s possible outcomes.  `h.toString("latin1").toLowerCase()
.split(":")` destructures into `[name, value]`; when a matching line has no
colon, `value` is `undefined` and `value.trim()` throws a `TypeError`
(`crash`). -/
inductive FieldRes
  | found (v : List Nat)
  | nofield
  | crash
  deriving DecidableEq, Repr

/-- `fieldGet(headers, key)`: lowercase the whole line, split on `":"`,
compare the first part with the lowercased key; on the first match return
`Buffer.from(value.trim())` where `value` is the part between the first and
the second colon (UTF-8 re-encoded by `Buffer.from` on a string). -/
def fieldGet (headers : List (List Nat)) (key : List Nat) : FieldRes :=
  match headers with
  | [] => .nofield
  | h :: rest =>
    let low := h.map latinToLower
    let parts := splitOnByte 58 low
    if parts.headD [] = key.map latinToLower then
      match parts with
      | _ :: v :: _ => .found (utf8OfLatin1 (trimBytes v))
      | _ => .crash
    else fieldGet rest key

/-- The lowercased field name of a header line: the lowercased bytes before
the first colon (used to state `fieldGet`'s behaviour). -/
def lineNameLower (h : List Nat) : List Nat :=
  (h.map latinToLower).takeWhile (· ≠ 58)

/-- The value segment `fieldGet` extracts: the lowercased bytes strictly
between the first and the second colon (everything from a second colon on
is dropped by the `split(":")` destructuring). -/
def lineValueSeg (h : List Nat) : List Nat :=
  (((h.map latinToLower).dropWhile (· ≠ 58)).drop 1).takeWhile (· ≠ 58)

/-- A parsed request header (`HTTPReq`): `method` and `version` are JS
strings (latin1 character codes), `uri` is `Buffer.from(parts[1])` (UTF-8
bytes), `headers` are raw copies of the header lines. -/
structure HTTPReq where
  method : List Nat
  uri : List Nat
  version : List Nat
  headers : List (List Nat)
  deriving DecidableEq, Repr

/-- `splitLines`: cut the data at each `"\r\n"`.  The source asserts that a
`"\r\n"` is always found (true for every input `parseHTTPReq` receives from
`cutMessage`, which always ends in `"\r\n\r\n"`); the `none` branch is
unreachable there.  Fuel-driven; `splitLines` supplies `data.length`,
sufficient since every step consumes at least two bytes. -/
def splitLinesF : Nat → List Nat → List (List Nat)
  | 0, _ => []
  | f + 1, data =>
    if data = [] then []
    else
      match crlfIdx data with
      | none => []
      | some i => data.take i :: splitLinesF f (data.drop (i + 2))

def splitLines (data : List Nat) : List (List Nat) := splitLinesF data.length data

/-- `parseRequestLine`: `METHOD SP URI SP HTTP/VERSION`; exactly three
space-separated parts, URI starts with `"/"`, version starts with
`"HTTP/"`; returns `(method, uri, versionN)` with the `"HTTP/"` prefix
stripped. -/
def parseRequestLine (line : List Nat) :
    Except Err (List Nat × List Nat × List Nat) :=
  if line = [] then .error (.httpError 400 "empty request line")
  else
    match splitOnByte 32 line with
    | [m, u, v] =>
      let uri := utf8OfLatin1 u
      if ¬(uri ≠ [] ∧ uri.headD 0 = 47) then
        .error (.httpError 400 "bad request line")
      else if v.take 5 ≠ strB "HTTP/" then
        .error (.httpError 400 "bad request line")
      else .ok (m, uri, v.drop 5)
    | _ => .error (.httpError 400 "bad request line")

/-- `validateHeader`: a colon not at position 0, and no embedded `"\n"`. -/
def validateHeader (line : List Nat) : Bool :=
  match byteIdx 58 line with
  | none => false
  | some i => decide (1 ≤ i) && !(line.contains 10)

/-- The header-collection loop of `parseHTTPReq`: validate each line, fail
with 400 `"bad field"` on the first invalid one. -/
def parseHeaders : List (List Nat) → Except Err (List (List Nat))
  | [] => .ok []
  | h :: rest =>
    if validateHeader h then (parseHeaders rest).map (h :: ·)
    else .error (.httpError 400 "bad field")

/-- `parseHTTPReq(data)`: split into lines, parse the request line, then
every line up to (excluding) the trailing empty line as a header field.
(The source's `console.assert` that the last line is empty is a log, not a
check, and always holds for `cutMessage` inputs.) -/
def parseHTTPReq (data : List Nat) : Except Err HTTPReq :=
  match splitLines data with
  | [] => .error (.jsError "TypeError")
  | l0 :: restLines =>
    match parseRequestLine l0 with
    | .error e => .error e
    | .ok (m, u, v) =>
      match parseHeaders restLines.dropLast with
      | .error e => .error e
      | .ok hs => .ok ⟨m, u, v, hs⟩

/-- `kMaxHeaderLen = 1024 * 8`. -/
def kMaxHeaderLen : Nat := 1024 * 8

/-- `cutMessage(buf)` over the live-byte view: find `"\r\n\r\n"`; absent →
413 `"header is too large"` once `length ≥ kMaxHeaderLen`, else `none`
(need more data); present at `i` → parse the head `take (i+4)` and advance
the buffer by `i + 4` bytes (`bufPop`). -/
def cutMessage (buf : List Nat) : Except Err (Option (HTTPReq × List Nat)) :=
  match crlf2Idx buf with
  | none =>
    if kMaxHeaderLen ≤ buf.length then
      .error (.httpError 413 "header is too large")
    else .ok none
  | some i =>
    match parseHTTPReq (buf.take (i + 4)) with
    | .error e => .error e
    | .ok req => .ok (some (req, buf.drop (i + 4)))

/-! ## Body readers

A connection's input is `(buf, stream)`: the live bytes of the shared
`DynBuf` plus the not-yet-delivered socket `data` events. -/

/-- `readerFromMemory(data)` closes over a `done` flag. -/
structure MemReader where
  data : List Nat
  done : Bool
  deriving DecidableEq, Repr

def readerFromMemory (d : List Nat) : MemReader := ⟨d, false⟩

/-- The reader's `length` field: `data.length` at creation time. -/
def memLength (r : MemReader) : Nat := r.data.length

/-- One `read()`: the full data on the first call, an empty buffer ever
after. -/
def memRead (r : MemReader) : List Nat × MemReader :=
  if r.done then ([], r) else (r.data, { r with done := true })

/-- The outputs of `k` successive `read()` calls. -/
def memReads (r : MemReader) : Nat → List (List Nat)
  | 0 => []
  | k + 1 =>
    let (x, r') := memRead r
    x :: memReads r' k

/-- One `read()` of `readerFromConnLength`'s reader: immediately empty when
`remain = 0`; otherwise pull one socket unit into the empty buffer first
(EOF there throws `"Unexpected EOF from HTTP body"`), then consume
`min(buf.length, remain)` bytes from the buffer front.  Returns
`(data, remain', buf', stream')`. -/
def bodyReadLen (remain : Nat) (buf : List Nat) (stream : List (List Nat)) :
    Except Err (List Nat × Nat × List Nat × List (List Nat)) :=
  if remain = 0 then .ok ([], remain, buf, stream)
  else
    let pulled : Except Err (List Nat × List (List Nat)) :=
      if buf = [] then
        match stream with
        | [] => .error (.jsError "Unexpected EOF from HTTP body")
        | d :: rest =>
          if d = [] then .error (.jsError "Unexpected EOF from HTTP body")
          else .ok (buf ++ d, rest)
      else .ok (buf, stream)
    match pulled with
    | .error e => .error e
    | .ok (b, s) =>
      let consume := min b.length remain
      .ok (b.take consume, remain - consume, b.drop consume, s)

/-- Driving the length-bounded reader to its empty terminator (the
connection loop's drain, or any consumer that reads until empty): collect
the non-empty reads and the final `(buf, stream)`.  Fuel-driven;
`readAllLen` supplies `remain + 1`, sufficient since every non-final read
consumes at least one of `remain`. -/
def readAllLenF : Nat → Nat → List Nat → List (List Nat) →
    Except Err (List (List Nat) × List Nat × List (List Nat))
  | 0, _, buf, stream => .ok ([], buf, stream)
  | f + 1, remain, buf, stream =>
    match bodyReadLen remain buf stream with
    | .error e => .error e
    | .ok (data, remain', buf', stream') =>
      if data = [] then .ok ([], buf', stream')
      else
        match readAllLenF f remain' buf' stream' with
        | .error e => .error e
        | .ok (ds, b, s) => .ok (data :: ds, b, s)

def readAllLen (remain : Nat) (buf : List Nat) (stream : List (List Nat)) :
    Except Err (List (List Nat) × List Nat × List (List Nat)) :=
  readAllLenF (remain + 1) remain buf stream

/-! ## Chunked codec -/

/-- The `while (remain > 0)` loop of `readChunks`: consume
`min(remain, buf.length)` bytes per iteration, pulling a socket unit when
the buffer is empty (`bufExpectMore`, EOF → 400 `"Unexpected EOF in chunk
data"`); each iteration yields its bytes.  Fuel-driven; `readChunkData`
supplies `remain + stream.length + 1`, sufficient since every step either
consumes from `remain` or shortens the stream. -/
def readChunkDataF : Nat → Nat → List Nat → List (List Nat) →
    Except Err (List (List Nat) × List Nat × List (List Nat))
  | 0, _, buf, stream => .ok ([], buf, stream)
  | f + 1, remain, buf, stream =>
    if remain = 0 then .ok ([], buf, stream)
    else if buf = [] then
      match stream with
      | [] => .error (.httpError 400 "Unexpected EOF in chunk data")
      | d :: rest =>
        if d = [] then .error (.httpError 400 "Unexpected EOF in chunk data")
        else readChunkDataF f remain d rest
    else
      let consume := min remain buf.length
      match readChunkDataF f (remain - consume) (buf.drop consume) stream with
      | .error e => .error e
      | .ok (ds, b, s) => .ok (buf.take consume :: ds, b, s)

def readChunkData (remain : Nat) (buf : List Nat) (stream : List (List Nat)) :
    Except Err (List (List Nat) × List Nat × List (List Nat)) :=
  readChunkDataF (remain + stream.length + 1) remain buf stream

/-- The `while (buf.length < 2)` wait plus the CRLF check after a chunk's
data: pull units until two bytes are available (EOF → 400 `"Unexpected EOF
in chunk CRLF"`), then require them to be `"\r\n"` (else 400
`"expect CRLF"`) and consume them. -/
def readChunkCRLF (buf : List Nat) :
    List (List Nat) → Except Err (List Nat × List (List Nat))
  | [] =>
    if buf.length < 2 then .error (.httpError 400 "Unexpected EOF in chunk CRLF")
    else if buf.take 2 = [13, 10] then .ok (buf.drop 2, [])
    else .error (.httpError 400 "expect CRLF")
  | d :: rest =>
    if buf.length < 2 then
      if d = [] then .error (.httpError 400 "Unexpected EOF in chunk CRLF")
      else readChunkCRLF (buf ++ d) rest
    else if buf.take 2 = [13, 10] then .ok (buf.drop 2, d :: rest)
    else .error (.httpError 400 "expect CRLF")

/-- The `readChunks` decoder state machine, one fuel per iteration of its
outer `for` loop (also per `bufExpectMore` retry while hunting the size
line); `none` = out of fuel.  On success it returns the yielded chunk-data
pieces in order together with the final `(buf, stream)`.

Faithful quirks: the size line must show up within 32 unconsumed bytes
(strictly more without a CRLF → 400 `"expect chunk-size"`); the size string
is checked by `isHex` (vacuously true when empty) and parsed by
`parseInt(s, 16)` — for the empty string that is `NaN` (`none`), so
`last = (remain === 0)` is `false` and the data loop does not run. -/
def decodeChunks : Nat → List Nat → List (List Nat) →
    Option (Except Err (List (List Nat) × List Nat × List (List Nat)))
  | 0, _, _ => none
  | fuel + 1, buf, stream =>
    match crlfIdx buf with
    | none =>
      if 32 < buf.length then some (.error (.httpError 400 "expect chunk-size"))
      else
        match stream with
        | [] => some (.error (.httpError 400 "Unexpected EOF in chunk-size"))
        | d :: rest =>
          if d = [] then some (.error (.httpError 400 "Unexpected EOF in chunk-size"))
          else decodeChunks fuel (buf ++ d) rest
    | some i =>
      let sizeStr := buf.take i
      if isHexB sizeStr then
        let r := parseHexJs sizeStr
        match readChunkData (r.getD 0) (buf.drop (i + 2)) stream with
        | .error e => some (.error e)
        | .ok (ds, b2, s2) =>
          match readChunkCRLF b2 s2 with
          | .error e => some (.error e)
          | .ok (b3, s3) =>
            if r = some 0 then some (.ok (ds, b3, s3))
            else
              match decodeChunks fuel b3 s3 with
              | none => none
              | some (.error e) => some (.error e)
              | some (.ok (ds', b4, s4)) => some (.ok (ds ++ ds', b4, s4))
      else some (.error (.httpError 400 "expect hex digits"))

/-- The chunked-encoding side of `writeHTTPResp` (taken when
`resp.body.length < 0`): for each `read()` result emit
`hex(data.length) ++ CRLF ++ data ++ CRLF`; the loop stops after the first
empty read, whose encoding is the terminator `0\r\n\r\n`.  `reads` is the
sequence of results the body reader produces. -/
def writeChunkedBody : List (List Nat) → List Nat
  | [] => hexStr 0 ++ [13, 10] ++ [13, 10]
  | u :: us =>
    if u = [] then hexStr 0 ++ [13, 10] ++ [13, 10]
    else (hexStr u.length ++ [13, 10] ++ u ++ [13, 10]) ++ writeChunkedBody us

/-! ## `readerFromReq` and the connection loop -/

/-- Which `BodyReader` `readerFromReq` builds. -/
inductive ReaderKind
  | connLength (n : Nat)
  | chunked
  | connEOF
  deriving DecidableEq, Repr

/-- `fieldGet(...)?.equals(Buffer.from("chunked")) || false`. -/
def isChunkedTE : FieldRes → Bool
  | .found v => v == strB "chunked"
  | _ => false

/-- The tail of `readerFromReq` once `bodyLen` is settled (`none` = `-1`):
compute `bodyAllowed` and `chunked`, reject disallowed bodies with 400
`"HTTP body not allowed."`, force `bodyLen = 0` for GET/HEAD, then pick the
reader. -/
def readerFromReqK2 (req : HTTPReq) (bodyLen : Option Nat) :
    Except Err ReaderKind :=
  let bodyAllowed : Bool :=
    !(req.method == strB "GET" || req.method == strB "HEAD")
  match fieldGet req.headers (strB "Transfer-Encoding") with
  | .crash => .error (.jsError "TypeError")
  | te =>
    let chunked := isChunkedTE te
    if !bodyAllowed && (decide (0 < bodyLen.getD 0) || chunked) then
      .error (.httpError 400 "HTTP body not allowed.")
    else
      match (if bodyAllowed then bodyLen else some 0) with
      | some n => .ok (.connLength n)
      | none => if chunked then .ok .chunked else .ok .connEOF

/-- `readerFromReq(conn, buf, req)` up to the choice of reader: look up
`Content-Length` (a malformed value — `parseDec` `NaN` — throws 400
`"bad Content-Length."` before anything else), then delegate. -/
def readerFromReqK (req : HTTPReq) : Except Err ReaderKind :=
  match fieldGet req.headers (strB "Content-Length") with
  | .crash => .error (.jsError "TypeError")
  | .found v =>
    match parseDec v with
    | none => .error (.httpError 400 "bad Content-Length.")
    | some n => readerFromReqK2 req (some n)
  | .nofield => readerFromReqK2 req none

/-- Draining `readerFromConnEOF`'s reader: the first read clears the shared
buffer, subsequent reads forward socket units until `soRead` returns empty.
Only the final `(buf, stream)` matters to the connection loop. -/
def drainEOF : List Nat → List (List Nat) → List Nat × List (List Nat)
  | _, [] => ([], [])
  | _, d :: rest => if d = [] then ([], rest) else drainEOF [] rest

/-- Consuming a request's body completely (the streaming of an `/echo`
response plus the loop's final drain, or the drain alone): the resulting
connection-input state.  `fuel` bounds the chunked decoder's iterations. -/
def drainBody (fuel : Nat) (k : ReaderKind) (buf : List Nat)
    (s : List (List Nat)) : Option (Except Err (List Nat × List (List Nat))) :=
  match k with
  | .connLength n =>
    match readAllLen n buf s with
    | .error e => some (.error e)
    | .ok (_, b, s') => some (.ok (b, s'))
  | .chunked =>
    match decodeChunks fuel buf s with
    | none => none
    | some (.error e) => some (.error e)
    | some (.ok (_, b, s')) => some (.ok (b, s'))
  | .connEOF => some (.ok (drainEOF buf s))

/-- The `serveClient` loop, observed through the sequence of requests it
serves (response output is not modelled; the sample handlers never consume
connection input beyond the request body, and an `/echo` response's
streaming plus the final drain together consume exactly the body, which is
what `drainBody` performs).  One fuel per loop iteration; `none` = out of
fuel.  Per iteration: try to frame a request; on `need more data` pull a
unit (EOF with an empty buffer ends the connection cleanly, EOF with
pending bytes throws 400 `"Unexpected EOF."`); once framed, build the body
reader, and after the response close for version `"1.0"` or drain the body
and loop. -/
def serveClientF : Nat → List Nat → List (List Nat) →
    Option (Except Err (List HTTPReq))
  | 0, _, _ => none
  | fuel + 1, buf, stream =>
    match cutMessage buf with
    | .error e => some (.error e)
    | .ok none =>
      match stream with
      | [] =>
        if buf = [] then some (.ok [])
        else some (.error (.httpError 400 "Unexpected EOF."))
      | d :: rest =>
        if d = [] then
          if buf = [] then some (.ok [])
          else some (.error (.httpError 400 "Unexpected EOF."))
        else serveClientF fuel (buf ++ d) rest
    | .ok (some (req, buf1)) =>
      match readerFromReqK req with
      | .error e => some (.error e)
      | .ok kind =>
        if req.version = strB "1.0" then some (.ok [req])
        else
          match drainBody fuel kind buf1 stream with
          | none => none
          | some (.error e) => some (.error e)
          | some (.ok (buf2, s2)) =>
            match serveClientF fuel buf2 s2 with
            | none => none
            | some (.error e) => some (.error e)
            | some (.ok reqs) => some (.ok (req :: reqs))

/-! ## Helper lemmas -/

theorem memReads_done (d : List Nat) (k : Nat) :
    memReads ⟨d, true⟩ k = List.replicate k [] := by
  induction k with
  | zero => rfl
  | succ k ih => simp [memReads, memRead, ih, List.replicate]

/-! ## C10 — `readerFromMemory` -/

/-- C10.  For every byte string `data` (including the empty one), the
in-memory body reader has declared length `data.length`, its first read
returns `data` in full, and every later read returns the empty byte
string; hence it produces at most one non-empty read and a drain loop
reading until empty terminates (by the second read at the latest). -/
theorem readerFromMemory_spec (d : List Nat) (k : Nat) :
    memLength (readerFromMemory d) = d.length ∧
    memReads (readerFromMemory d) (k + 1) = d :: List.replicate k [] ∧
    (memReads (readerFromMemory d) (k + 1)).filter (fun x => !x.isEmpty) =
      if d.isEmpty then [] else [d] := by
  refine ⟨rfl, ?_, ?_⟩
  · simp [memReads, memRead, readerFromMemory, memReads_done]
  · simp [memReads, memRead, readerFromMemory, memReads_done,
      List.filter_replicate]
    cases d <;> simp

/-! ## C4 — `soRead` with a read already in flight -/

/-- C4 (amended).  Calling `soRead` while a previous read is still
unresolved is *not* rejected: `console.assert` only logs the failure
(recorded in `assertFailures`), after which the call proceeds exactly as
usual and installs the new promise's callbacks, overwriting the previous
reader.  The single-in-flight-read invariant is assumed of callers, not
enforced. -/
theorem soRead_concurrent_spec (c : TCPConn) (id : Nat)
    (hr : c.reader.isSome = true) (he : c.err = false) (hd : c.ended = false) :
    soRead c id =
      (.pending,
        { c with reader := some id,
                 assertFailures := c.assertFailures + 1 }) := by
  simp [soRead, hr, he, hd]

theorem soRead_concurrent_spec_witness :
    (TCPConn.mk false false (some 0) 0).reader.isSome = true ∧
    soRead ⟨false, false, some 0, 0⟩ 1 =
      (.pending, ⟨false, false, some 1, 1⟩) :=
  ⟨by decide, soRead_concurrent_spec ⟨false, false, some 0, 0⟩ 1 (by decide) rfl rfl⟩

/-- C4 counterexample.  With a reader installed (and no error/EOF), a
second `soRead` is not rejected: it returns a pending read, has overwritten
the stored reader with the new promise's callbacks, and the only trace of
the violated contract is a logged assertion failure. -/
theorem soRead_concurrent_counterexample :
    (soRead ⟨false, false, some 0, 0⟩ 1).1 = SoReadRes.pending ∧
    (soRead ⟨false, false, some 0, 0⟩ 1).2.reader = some 1 ∧
    (soRead ⟨false, false, some 0, 0⟩ 1).2.assertFailures = 1 ∧
    SoReadRes.pending ≠ SoReadRes.rejected := by
  refine ⟨rfl, rfl, rfl, by decide⟩

/-! ## C2 — `fieldGet` -/

/-- C2 counterexample.  `fieldGet` lowercases the whole header line before
splitting, so the returned value does *not* preserve the original character
case: looking up `"Host"` in `["Host: ABC"]` yields `"abc"`, not `"ABC"`. -/
theorem fieldGet_counterexample :
    fieldGet [strB "Host: ABC"] (strB "Host") = .found (strB "abc") ∧
    FieldRes.found (strB "abc") ≠ .found (strB "ABC") := by
  refine ⟨by decide, by decide⟩

theorem splitOnByte_ne_nil (sep : Nat) (l : List Nat) :
    splitOnByte sep l ≠ [] := by
  cases l with
  | nil => simp [splitOnByte]
  | cons c rest =>
    simp only [splitOnByte]
    cases splitOnByte sep rest with
    | nil => simp
    | cons g gs => by_cases h : c = sep <;> simp [h]

theorem splitOnByte_headD (sep : Nat) (l : List Nat) :
    (splitOnByte sep l).headD [] = l.takeWhile (· ≠ sep) := by
  induction l with
  | nil => simp [splitOnByte]
  | cons c rest ih =>
    simp only [splitOnByte]
    rcases hs : splitOnByte sep rest with _ | ⟨g, gs⟩
    · exact absurd hs (splitOnByte_ne_nil sep rest)
    · rw [hs] at ih
      by_cases h : c = sep
      · simp [h]
      · simp only [List.headD_cons] at ih
        simp [h, List.takeWhile_cons, ih]

theorem splitOnByte_of_not_contains (sep : Nat) (l : List Nat)
    (h : l.contains sep = false) : splitOnByte sep l = [l] := by
  induction l with
  | nil => rfl
  | cons c rest ih =>
    by_cases hc : c = sep
    · subst hc
      simp [List.contains_cons] at h
    · have h2 : rest.contains sep = false := by
        simp only [List.contains_cons, Bool.or_eq_false_iff] at h
        exact h.2
      simp only [splitOnByte, ih h2]
      simp [hc]

theorem splitOnByte_of_contains (sep : Nat) (l : List Nat)
    (h : l.contains sep = true) :
    splitOnByte sep l =
      l.takeWhile (· ≠ sep) :: splitOnByte sep ((l.dropWhile (· ≠ sep)).drop 1) := by
  induction l with
  | nil => simp at h
  | cons c rest ih =>
    by_cases hc : c = sep
    · subst hc
      simp only [splitOnByte]
      rcases hs : splitOnByte c rest with _ | ⟨g, gs⟩
      · exact absurd hs (splitOnByte_ne_nil c rest)
      · simp [hs]
    · have hrest : rest.contains sep = true := by
        simp only [List.contains_cons, Bool.or_eq_true_iff] at h
        rcases h with h1 | h1
        · exact absurd (beq_iff_eq.mp h1).symm hc
        · exact h1
      simp only [splitOnByte, ih hrest]
      simp [hc, List.takeWhile_cons, List.dropWhile_cons]

/-- C2 (amended).  `fieldGet` matches the field name case-insensitively
(first match wins) and returns `null` when no line's name matches; but on a
match the returned value is the *lowercased* text strictly between the
first and second colon of the line, trimmed of surrounding whitespace
(UTF-8 re-encoded), rather than the case-preserved remainder of the line —
and a matching line without any colon makes the JS crash on
`undefined.trim()`. -/
theorem fieldGet_amended (headers : List (List Nat)) (key : List Nat) :
    fieldGet headers key =
      match headers.find? (fun h => lineNameLower h == key.map latinToLower) with
      | none => .nofield
      | some h =>
        if (h.map latinToLower).contains 58 then
          .found (utf8OfLatin1 (trimBytes (lineValueSeg h)))
        else .crash := by
  induction headers with
  | nil => rfl
  | cons h rest ih =>
    by_cases hm : lineNameLower h = key.map latinToLower
    · rw [List.find?_cons_of_pos _ (by simpa using hm)]
      simp only [fieldGet, splitOnByte_headD]
      rw [if_pos (by simpa [lineNameLower] using hm)]
      by_cases hc : (h.map latinToLower).contains 58
      · rw [splitOnByte_of_contains 58 _ hc]
        rcases hs : splitOnByte 58 (((h.map latinToLower).dropWhile (· ≠ 58)).drop 1)
          with _ | ⟨g, gs⟩
        · exact absurd hs (splitOnByte_ne_nil _ _)
        · rw [hs]
          have h2 := splitOnByte_headD 58
            (((h.map latinToLower).dropWhile (· ≠ 58)).drop 1)
          rw [hs] at h2
          have hg : g = lineValueSeg h := by simpa [lineValueSeg] using h2
          rw [hg, if_pos hc]
      · rw [splitOnByte_of_not_contains 58 _ (by simpa using hc), if_neg hc]
    · rw [List.find?_cons_of_neg _ (by simpa using hm)]
      simp only [fieldGet, splitOnByte_headD]
      rw [if_neg (by simpa [lineNameLower] using hm)]
      exact ih

/-! ## C5 — `cutMessage` framing -/

/-- C5.  The framer returns `need more data` (`.ok none`) exactly when the
unconsumed bytes contain no `"\r\n\r\n"` and are shorter than
`kMaxHeaderLen` (8192); with no terminator and length ≥ 8192 it fails with
413 `"header is too large"`; and when the terminator sits at index `i` and
the head parses, it returns the parsed request with the buffer advanced by
exactly the head's byte length `i + 4` (through the terminating blank
line). -/
theorem cutMessage_spec (buf : List Nat) :
    (cutMessage buf = .ok none ↔
      crlf2Idx buf = none ∧ buf.length < kMaxHeaderLen) ∧
    (crlf2Idx buf = none → kMaxHeaderLen ≤ buf.length →
      cutMessage buf = .error (.httpError 413 "header is too large")) ∧
    (∀ i req, crlf2Idx buf = some i →
      parseHTTPReq (buf.take (i + 4)) = .ok req →
      cutMessage buf = .ok (some (req, buf.drop (i + 4)))) := by
  refine ⟨⟨?_, ?_⟩, ?_, ?_⟩
  · intro h
    rcases hi : crlf2Idx buf with _ | i
    · refine ⟨rfl, ?_⟩
      by_contra hlen
      simp [cutMessage, hi, Nat.le_of_not_lt hlen] at h
    · exfalso
      simp only [cutMessage, hi] at h
      rcases hp : parseHTTPReq (buf.take (i + 4)) with e | req <;> simp [hp] at h
  · rintro ⟨h1, h2⟩
    simp [cutMessage, h1, Nat.not_le.mpr h2]
  · intro h1 h2
    simp [cutMessage, h1, h2]
  · intro i req hi hp
    simp [cutMessage, hi, hp]

theorem cutMessage_spec_witness :
    crlf2Idx (strB "GET / HTTP/1.1\r\nHost: x\r\n\r\n") = some 23 ∧
    parseHTTPReq ((strB "GET / HTTP/1.1\r\nHost: x\r\n\r\n").take 27) =
      .ok ⟨strB "GET", strB "/", strB "1.1", [strB "Host: x"]⟩ ∧
    cutMessage (strB "GET / HTTP/1.1\r\nHost: x\r\n\r\n") =
      .ok (some (⟨strB "GET", strB "/", strB "1.1", [strB "Host: x"]⟩,
        (strB "GET / HTTP/1.1\r\nHost: x\r\n\r\n").drop 27)) :=
  ⟨rfl, rfl,
    (cutMessage_spec (strB "GET / HTTP/1.1\r\nHost: x\r\n\r\n")).2.2 23
      ⟨strB "GET", strB "/", strB "1.1", [strB "Host: x"]⟩ rfl rfl⟩

/-! ## C3 — the chunked decoder's size-line state -/

theorem readChunkDataF_zero (f : Nat) (b : List Nat) (s : List (List Nat)) :
    readChunkDataF f 0 b s = .ok ([], b, s) := by
  cases f <;> simp [readChunkDataF]

theorem readChunkData_zero (b : List Nat) (s : List (List Nat)) :
    readChunkData 0 b s = .ok ([], b, s) := readChunkDataF_zero _ _ _

theorem readChunkCRLF_crlf (rest : List Nat) (s : List (List Nat)) :
    readChunkCRLF (13 :: 10 :: rest) s = .ok (rest, s) := by
  cases s with
  | nil =>
    simp only [readChunkCRLF, List.length_cons]
    rw [if_neg (by omega)]
    simp
  | cons d r =>
    simp only [readChunkCRLF, List.length_cons]
    rw [if_neg (by omega)]
    simp

/-- C3 counterexample.  An *empty* size string passes `isHex` (vacuously)
yet `parseInt("", 16)` is `NaN`, so `n` is not parsed as the hex integer 0
and the zero-size line does **not** mark the final chunk: on the buffer
`"\r\n\r\n"` the decoder neither fails with a bad-chunk-size error nor
terminates successfully — it consumes both CRLFs as an unterminated
non-final chunk and then dies on EOF. -/
theorem readChunks_sizeLine_counterexample :
    isHexB [] = true ∧ parseHexJs [] = none ∧
    decodeChunks 2 [13, 10, 13, 10] [] =
      some (.error (.httpError 400 "Unexpected EOF in chunk-size")) :=
  ⟨rfl, rfl, rfl⟩

/-- C3 (amended).  In the size-line state: no CRLF with strictly more than
32 unconsumed bytes fails with 400 `"expect chunk-size"`; a CRLF preceded
by non-hex bytes fails with 400 `"expect hex digits"`; a CRLF at `i > 0`
preceded by hex digits parses them as the hex integer `n` and consumes the
size line and its CRLF — `n = 0` marking the final chunk (the decoder then
just consumes the trailing CRLF and terminates with no data), `n > 0`
continuing with the chunk-data and chunk-CRLF states.  *Exception to the
claim*: an empty size string (CRLF at index 0, vacuously hex) is consumed
but `parseInt("", 16)` is `NaN`, so it acts as a non-final zero-data chunk
instead of parsing as `n = 0`. -/
theorem readChunks_sizeLine_spec (fuel : Nat) (buf : List Nat)
    (stream : List (List Nat)) :
    (crlfIdx buf = none → 32 < buf.length →
      decodeChunks (fuel + 1) buf stream =
        some (.error (.httpError 400 "expect chunk-size"))) ∧
    (∀ i, crlfIdx buf = some i → isHexB (buf.take i) = false →
      decodeChunks (fuel + 1) buf stream =
        some (.error (.httpError 400 "expect hex digits"))) ∧
    (∀ i rest, crlfIdx buf = some i → isHexB (buf.take i) = true →
      parseHexJs (buf.take i) = some 0 → buf.drop (i + 2) = 13 :: 10 :: rest →
      decodeChunks (fuel + 1) buf stream = some (.ok ([], rest, stream))) ∧
    (∀ i n, crlfIdx buf = some i → isHexB (buf.take i) = true →
      parseHexJs (buf.take i) = some n → 0 < n →
      decodeChunks (fuel + 1) buf stream =
        (match readChunkData n (buf.drop (i + 2)) stream with
         | .error e => some (.error e)
         | .ok (ds, b2, s2) =>
           match readChunkCRLF b2 s2 with
           | .error e => some (.error e)
           | .ok (b3, s3) =>
             match decodeChunks fuel b3 s3 with
             | none => none
             | some (.error e) => some (.error e)
             | some (.ok (ds', b4, s4)) => some (.ok (ds ++ ds', b4, s4)))) ∧
    (crlfIdx buf = some 0 →
      decodeChunks (fuel + 1) buf stream =
        (match readChunkCRLF (buf.drop 2) stream with
         | .error e => some (.error e)
         | .ok (b3, s3) => decodeChunks fuel b3 s3)) := by
  refine ⟨?_, ?_, ?_, ?_, ?_⟩
  · intro h1 h2
    simp [decodeChunks, h1, h2]
  · intro i hi hhex
    simp [decodeChunks, hi, hhex]
  · intro i rest hi hhex hparse hdrop
    simp only [decodeChunks, hi]
    rw [if_pos hhex]
    simp only [hparse, Option.getD_some, readChunkData_zero, hdrop,
      readChunkCRLF_crlf]
    simp
  · intro i n hi hhex hparse hn
    simp only [decodeChunks, hi]
    rw [if_pos hhex]
    simp only [hparse, Option.getD_some]
    cases he : readChunkData n (buf.drop (i + 2)) stream with
    | error e => rfl
    | ok t =>
      obtain ⟨ds, b2, s2⟩ := t
      dsimp only
      cases hc : readChunkCRLF b2 s2 with
      | error e => rfl
      | ok t2 =>
        obtain ⟨b3, s3⟩ := t2
        dsimp only
        have hne : ¬(some n = some 0) := by
          intro hh
          exact absurd (Option.some.inj hh) (Nat.pos_iff_ne_zero.mp hn)
        rw [if_neg hne]
  · intro h0
    simp only [decodeChunks, h0, List.take_zero]
    rw [if_pos (by rfl)]
    simp only [show parseHexJs [] = none from rfl, Option.getD_none,
      readChunkData_zero, Nat.zero_add]
    cases hc : readChunkCRLF (buf.drop 2) stream with
    | error e => rfl
    | ok t2 =>
      obtain ⟨b3, s3⟩ := t2
      dsimp only
      rw [if_neg (by simp)]
      cases hd : decodeChunks fuel b3 s3 with
      | none => rfl
      | some r => cases r with
        | error e => rfl
        | ok t3 =>
          obtain ⟨ds', b4, s4⟩ := t3
          simp

theorem readChunks_sizeLine_spec_witness :
    crlfIdx [48, 13, 10, 13, 10] = some 1 ∧
    isHexB ([48, 13, 10, 13, 10].take 1) = true ∧
    parseHexJs ([48, 13, 10, 13, 10].take 1) = some 0 ∧
    decodeChunks 1 [48, 13, 10, 13, 10] [] = some (.ok ([], [], [])) :=
  ⟨rfl, rfl, rfl,
    (readChunks_sizeLine_spec 0 [48, 13, 10, 13, 10] []).2.2.1 1 []
      rfl rfl rfl rfl⟩

/-! ## C8 — `readerFromReq` on GET/HEAD -/

theorem readerFromReqK2_notAllowed (req : HTTPReq) (bodyLen : Option Nat)
    (hba : (req.method == strB "GET" || req.method == strB "HEAD") = true)
    (hte : fieldGet req.headers (strB "Transfer-Encoding") ≠ .crash) :
    (readerFromReqK2 req bodyLen =
        .error (.httpError 400 "HTTP body not allowed.") ↔
      (0 < bodyLen.getD 0 ∨
        isChunkedTE (fieldGet req.headers (strB "Transfer-Encoding")) = true)) ∧
    (¬(0 < bodyLen.getD 0 ∨
        isChunkedTE (fieldGet req.headers (strB "Transfer-Encoding")) = true) →
      readerFromReqK2 req bodyLen = .ok (.connLength 0)) := by
  cases hf : fieldGet req.headers (strB "Transfer-Encoding") with
  | crash => exact absurd hf hte
  | found w =>
    simp only [readerFromReqK2, hf, hba]
    by_cases h1 : 0 < bodyLen.getD 0
    · refine ⟨by simp [h1], fun hcc => absurd (Or.inl h1) hcc⟩
    · by_cases h2 : isChunkedTE (FieldRes.found w) = true
      · refine ⟨by simp [h1, h2], fun hcc => absurd (Or.inr h2) hcc⟩
      · refine ⟨by simp [h1, h2], fun _ => by simp [h1, h2]⟩
  | nofield =>
    simp only [readerFromReqK2, hf, hba]
    by_cases h1 : 0 < bodyLen.getD 0
    · refine ⟨by simp [h1], fun hcc => absurd (Or.inl h1) hcc⟩
    · have h2 : isChunkedTE FieldRes.nofield = false := rfl
      refine ⟨by simp [h1, h2], fun _ => by simp [h1, h2]⟩

/-- C8 counterexample.  A GET request that declares *chunked* transfer
encoding together with a malformed `Content-Length` fails with 400
`"bad Content-Length."` (thrown while parsing the length, before the
body-allowed check), not with `BodyNotAllowed` — so `BodyNotAllowed` does
not occur *exactly* when the request declares `Content-Length > 0` or
chunked encoding. -/
theorem readerFromReq_getHead_counterexample :
    readerFromReqK ⟨strB "GET", strB "/", strB "1.1",
        [strB "Content-Length: x", strB "Transfer-Encoding: chunked"]⟩ =
      .error (.httpError 400 "bad Content-Length.") ∧
    isChunkedTE (fieldGet
        [strB "Content-Length: x", strB "Transfer-Encoding: chunked"]
        (strB "Transfer-Encoding")) = true ∧
    Err.httpError 400 "bad Content-Length." ≠
      Err.httpError 400 "HTTP body not allowed." :=
  ⟨rfl, rfl, by decide⟩

/-- C8 (amended).  For a parsed GET or HEAD request: a present but
non-numeric `Content-Length` fails first with 400 `"bad Content-Length."`;
otherwise the request fails with 400 `"HTTP body not allowed."` exactly
when its `Content-Length` parses to a positive integer or it declares
chunked transfer encoding; otherwise the body length is forced to 0 and
the resulting length-0 reader yields an empty body (its drain returns no
bytes and leaves the connection input untouched). -/
theorem readerFromReq_getHead_spec (req : HTTPReq)
    (hm : req.method = strB "GET" ∨ req.method = strB "HEAD") :
    (∀ v, fieldGet req.headers (strB "Content-Length") = .found v →
      parseDec v = none →
      readerFromReqK req = .error (.httpError 400 "bad Content-Length.")) ∧
    (∀ v n, fieldGet req.headers (strB "Content-Length") = .found v →
      parseDec v = some n →
      fieldGet req.headers (strB "Transfer-Encoding") ≠ .crash →
      ((readerFromReqK req = .error (.httpError 400 "HTTP body not allowed.") ↔
        (0 < n ∨
          isChunkedTE (fieldGet req.headers (strB "Transfer-Encoding")) = true)) ∧
       (¬(0 < n ∨
          isChunkedTE (fieldGet req.headers (strB "Transfer-Encoding")) = true) →
        readerFromReqK req = .ok (.connLength 0)))) ∧
    (fieldGet req.headers (strB "Content-Length") = .nofield →
      fieldGet req.headers (strB "Transfer-Encoding") ≠ .crash →
      ((readerFromReqK req = .error (.httpError 400 "HTTP body not allowed.") ↔
        isChunkedTE (fieldGet req.headers (strB "Transfer-Encoding")) = true) ∧
       (isChunkedTE (fieldGet req.headers (strB "Transfer-Encoding")) = false →
        readerFromReqK req = .ok (.connLength 0)))) ∧
    (∀ b s, readAllLen 0 b s = .ok ([], b, s)) := by
  have hba : (req.method == strB "GET" || req.method == strB "HEAD") = true := by
    rcases hm with h | h <;> simp [h]
  refine ⟨?_, ?_, ?_, ?_⟩
  · intro v hcl hparse
    simp [readerFromReqK, hcl, hparse]
  · intro v n hcl hparse hte
    have h := readerFromReqK2_notAllowed req (some n) hba hte
    simp only [Option.getD_some] at h
    simpa [readerFromReqK, hcl, hparse] using h
  · intro hcl hte
    have h := readerFromReqK2_notAllowed req none hba hte
    simp only [Option.getD_none, Nat.lt_irrefl, false_or] at h
    have h' := And.intro h.1 h.2
    constructor
    · simpa [readerFromReqK, hcl] using h.1
    · intro hch
      have : ¬isChunkedTE (fieldGet req.headers (strB "Transfer-Encoding")) = true := by
        simp [hch]
      simpa [readerFromReqK, hcl] using h.2 this
  · intro b s
    simp [readAllLen, readAllLenF, bodyReadLen]

theorem readerFromReq_getHead_spec_witness :
    fieldGet [strB "Content-Length: 0"] (strB "Content-Length") =
      .found (strB "0") ∧
    parseDec (strB "0") = some 0 ∧
    readerFromReqK ⟨strB "GET", strB "/", strB "1.1",
        [strB "Content-Length: 0"]⟩ = .ok (.connLength 0) :=
  ⟨rfl, rfl,
    ((readerFromReq_getHead_spec
        ⟨strB "GET", strB "/", strB "1.1", [strB "Content-Length: 0"]⟩
        (Or.inl rfl)).2.1 (strB "0") 0 rfl rfl (by decide)).2 (by decide)⟩

/-! ## C9 — the connection loop after a response -/

/-- C9.  Once `serveClient` has framed a request and streamed its
response: if the request declared HTTP version `"1.0"` the connection is
closed right away — the request sequence ends with this request, whatever
bytes may still be pending on the connection; for any other version the
loop fully drains the unread request-body bytes and loops back to frame a
subsequent request on the same connection, serving it after this one. -/
theorem serveClient_version_spec (fuel : Nat) (buf : List Nat)
    (stream : List (List Nat)) (req : HTTPReq) (buf1 : List Nat)
    (kind : ReaderKind)
    (hcut : cutMessage buf = .ok (some (req, buf1)))
    (hrk : readerFromReqK req = .ok kind) :
    (req.version = strB "1.0" →
      serveClientF (fuel + 1) buf stream = some (.ok [req])) ∧
    (∀ buf2 s2 reqs, req.version ≠ strB "1.0" →
      drainBody fuel kind buf1 stream = some (.ok (buf2, s2)) →
      serveClientF fuel buf2 s2 = some (.ok reqs) →
      serveClientF (fuel + 1) buf stream = some (.ok (req :: reqs))) := by
  constructor
  · intro hv
    simp [serveClientF, hcut, hrk, hv]
  · intro buf2 s2 reqs hv hdrain hrest
    simp [serveClientF, hcut, hrk, hv, hdrain, hrest]

theorem serveClient_version_spec_witness :
    cutMessage (strB "GET / HTTP/1.1\r\n\r\nGET /2 HTTP/1.0\r\n\r\n") =
      .ok (some (⟨strB "GET", strB "/", strB "1.1", []⟩,
        strB "GET /2 HTTP/1.0\r\n\r\n")) ∧
    readerFromReqK ⟨strB "GET", strB "/", strB "1.1", []⟩ =
      .ok (.connLength 0) ∧
    serveClientF 1 (strB "GET /2 HTTP/1.0\r\n\r\n") [] =
      some (.ok [⟨strB "GET", strB "/2", strB "1.0", []⟩]) ∧
    serveClientF 2 (strB "GET / HTTP/1.1\r\n\r\nGET /2 HTTP/1.0\r\n\r\n") [] =
      some (.ok [⟨strB "GET", strB "/", strB "1.1", []⟩,
        ⟨strB "GET", strB "/2", strB "1.0", []⟩]) :=
  ⟨rfl, rfl, rfl,
    (serveClient_version_spec 1 (strB "GET / HTTP/1.1\r\n\r\nGET /2 HTTP/1.0\r\n\r\n")
        [] ⟨strB "GET", strB "/", strB "1.1", []⟩
        (strB "GET /2 HTTP/1.0\r\n\r\n") (.connLength 0) rfl rfl).2
      (strB "GET /2 HTTP/1.0\r\n\r\n") []
      [⟨strB "GET", strB "/2", strB "1.0", []⟩] (by decide) rfl rfl⟩

/-! ## C7 — the length-bounded body reader -/

theorem take_min_split (B J : List Nat) (n : Nat) :
    B.take (min B.length n) ++ (B.drop (min B.length n) ++ J).take (n - min B.length n) =
      (B ++ J).take n := by
  by_cases h : n ≤ B.length
  · rw [Nat.min_eq_right h, Nat.sub_self, List.take_zero, List.append_nil,
      List.take_append_of_le_length h]
  · have h' : B.length ≤ n := Nat.le_of_not_le h
    rw [Nat.min_eq_left h', List.take_length, List.drop_length, List.nil_append,
      List.take_append_eq_append_take, List.take_of_length_le h']

theorem readAllLenF_spec (f : Nat) :
    ∀ (n : Nat) (buf : List Nat) (stream : List (List Nat)),
      n < f → (∀ d ∈ stream, d ≠ []) →
      ((n ≤ buf.length + (stream.map List.length).sum →
        ∃ ds b' s', readAllLenF f n buf stream = .ok (ds, b', s') ∧
          ds.flatten = (buf ++ stream.flatten).take n) ∧
       (buf.length + (stream.map List.length).sum < n →
        readAllLenF f n buf stream =
          .error (.jsError "Unexpected EOF from HTTP body"))) := by
  induction f with
  | zero => intro n buf stream hf; exact absurd hf (Nat.not_lt_zero n)
  | succ f ih =>
    intro n buf stream hf hs
    by_cases hn : n = 0
    · subst hn
      refine ⟨fun _ => ⟨[], buf, stream, by simp [readAllLenF, bodyReadLen], by simp⟩,
        fun h => absurd h (by omega)⟩
    · by_cases hb : buf = []
      · subst hb
        cases stream with
        | nil =>
          refine ⟨fun hle => ?_, fun _ => by simp [readAllLenF, bodyReadLen, hn]⟩
          exfalso
          simp at hle
          omega
        | cons d rest =>
          have hd : d ≠ [] := hs d (by simp)
          have hdl : 1 ≤ d.length := by
            cases d with
            | nil => exact absurd rfl hd
            | cons x xs => simp
          have hbody : bodyReadLen n [] (d :: rest) =
              .ok (d.take (min d.length n), n - min d.length n,
                d.drop (min d.length n), rest) := by
            simp [bodyReadLen, hn, hd]
          have hc1 : 1 ≤ min d.length n := by omega
          have hdata : d.take (min d.length n) ≠ [] := by
            rw [Ne, List.take_eq_nil_iff]
            push_neg
            exact ⟨by omega, hd⟩
          have ihk := ih (n - min d.length n) (d.drop (min d.length n)) rest
            (by omega) (fun x hx => hs x (List.mem_cons_of_mem _ hx))
          constructor
          · intro hle
            simp only [List.map_cons, List.sum_cons, List.length_nil] at hle
            obtain ⟨ds, b', s', heq, hflat⟩ := ihk.1 (by
              simp only [List.length_drop]
              omega)
            refine ⟨d.take (min d.length n) :: ds, b', s', ?_, ?_⟩
            · simp only [readAllLenF, hbody]
              rw [if_neg hdata, heq]
            · rw [List.flatten_cons, hflat, List.nil_append, List.flatten_cons,
                take_min_split]
          · intro hlt
            simp only [List.map_cons, List.sum_cons, List.length_nil] at hlt
            have herr := ihk.2 (by
              simp only [List.length_drop]
              omega)
            simp only [readAllLenF, hbody]
            rw [if_neg hdata, herr]
      · have hbl : 1 ≤ buf.length := by
          cases buf with
          | nil => exact absurd rfl hb
          | cons x xs => simp
        have hbody : bodyReadLen n buf stream =
            .ok (buf.take (min buf.length n), n - min buf.length n,
              buf.drop (min buf.length n), stream) := by
          simp [bodyReadLen, hn, hb]
        have hc1 : 1 ≤ min buf.length n := by omega
        have hdata : buf.take (min buf.length n) ≠ [] := by
          rw [Ne, List.take_eq_nil_iff]
          push_neg
          exact ⟨by omega, hb⟩
        have ihk := ih (n - min buf.length n) (buf.drop (min buf.length n)) stream
          (by omega) hs
        constructor
        · intro hle
          obtain ⟨ds, b', s', heq, hflat⟩ := ihk.1 (by
            simp only [List.length_drop]
            omega)
          refine ⟨buf.take (min buf.length n) :: ds, b', s', ?_, ?_⟩
          · simp only [readAllLenF, hbody]
            rw [if_neg hdata, heq]
          · rw [List.flatten_cons, hflat, take_min_split]
        · intro hlt
          have herr := ihk.2 (by
            simp only [List.length_drop]
            omega)
          simp only [readAllLenF, hbody]
          rw [if_neg hdata, herr]

/-- C7.  For a request whose remaining body length is `n`: when the shared
buffer plus the socket stream carry at least `n` bytes, driving
`readerFromConnLength`'s reader until its empty terminator succeeds and
the concatenation of its reads is exactly the first `n` bytes of
buffer-then-stream (the buffer is consumed before the channel); when the
stream ends while fewer than `n` bytes are available, the reader fails
with `"Unexpected EOF from HTTP body"`. -/
theorem readerFromConnLength_spec (n : Nat) (buf : List Nat)
    (stream : List (List Nat)) (hs : ∀ d ∈ stream, d ≠ []) :
    (n ≤ buf.length + (stream.map List.length).sum →
      (readAllLen n buf stream).toOption.map (fun t => t.1.flatten) =
        some ((buf ++ stream.flatten).take n)) ∧
    (buf.length + (stream.map List.length).sum < n →
      readAllLen n buf stream =
        .error (.jsError "Unexpected EOF from HTTP body")) := by
  have h := readAllLenF_spec (n + 1) n buf stream (Nat.lt_succ_self n) hs
  constructor
  · intro hle
    obtain ⟨ds, b', s', heq, hflat⟩ := h.1 hle
    rw [readAllLen, heq]
    simp [Except.toOption, hflat]
  · intro hlt
    rw [readAllLen, h.2 hlt]

theorem readerFromConnLength_spec_witness :
    (∀ d ∈ [strB "llo", strB "XX"], d ≠ []) ∧
    5 ≤ (strB "he").length + ([strB "llo", strB "XX"].map List.length).sum ∧
    (readAllLen 5 (strB "he") [strB "llo", strB "XX"]).toOption.map
        (fun t => t.1.flatten) =
      some ((strB "he" ++ [strB "llo", strB "XX"].flatten).take 5) :=
  ⟨by decide, by decide,
    (readerFromConnLength_spec 5 (strB "he") [strB "llo", strB "XX"]
      (by decide)).1 (by decide)⟩

/-! ## C1 — chunked encode/decode round trip -/

theorem hexDigitChar_hex (d : Nat) (hd : d < 16) :
    isHexDigit (hexDigitChar d) = true := by
  unfold hexDigitChar isHexDigit
  by_cases h : d < 10
  · rw [if_pos h]
    simp only [Bool.or_eq_true, Bool.and_eq_true, decide_eq_true_eq]
    omega
  · rw [if_neg h]
    simp only [Bool.or_eq_true, Bool.and_eq_true, decide_eq_true_eq]
    omega

theorem hexVal_hexDigitChar (d : Nat) (hd : d < 16) :
    hexVal (hexDigitChar d) = d := by
  unfold hexVal hexDigitChar
  by_cases h : d < 10
  · rw [if_pos h, if_pos (by omega)]
    omega
  · rw [if_neg h, if_neg (by omega), if_neg (by omega)]
    omega

theorem hexStrF_spec (f : Nat) :
    ∀ n, n ≤ f →
      hexStrF f n ≠ [] ∧ (∀ c ∈ hexStrF f n, isHexDigit c = true) ∧
      (hexStrF f n).foldl (fun a c => a * 16 + hexVal c) 0 = n := by
  induction f with
  | zero =>
    intro n hn
    have h0 : n = 0 := Nat.le_zero.mp hn
    subst h0
    refine ⟨by simp [hexStrF], ?_, ?_⟩
    · intro c hc
      simp only [hexStrF, List.mem_singleton] at hc
      subst hc
      exact hexDigitChar_hex _ (by omega)
    · simp [hexStrF, hexVal_hexDigitChar 0 (by omega)]
  | succ f ih =>
    intro n hn
    by_cases h : n < 16
    · refine ⟨by simp [hexStrF, h], ?_, ?_⟩
      · intro c hc
        simp only [hexStrF, if_pos h, List.mem_singleton] at hc
        subst hc
        exact hexDigitChar_hex n h
      · simp [hexStrF, h, hexVal_hexDigitChar n h]
    · have h16 : 16 ≤ n := Nat.le_of_not_lt h
      have hdiv : n / 16 ≤ f := by
        have h1 : n / 16 < n := Nat.div_lt_self (by omega) (by omega)
        omega
      obtain ⟨hne, hhex, hval⟩ := ih (n / 16) hdiv
      refine ⟨?_, ?_, ?_⟩
      · simp [hexStrF, h]
      · intro c hc
        simp only [hexStrF, if_neg h, List.mem_append, List.mem_singleton] at hc
        rcases hc with hc | hc
        · exact hhex c hc
        · subst hc
          exact hexDigitChar_hex _ (Nat.mod_lt n (by omega))
      · simp only [hexStrF, if_neg h, List.foldl_append, hval, List.foldl_cons,
          List.foldl_nil, hexVal_hexDigitChar _ (Nat.mod_lt n (by omega))]
        omega

theorem hexStr_spec (n : Nat) :
    hexStr n ≠ [] ∧ (∀ c ∈ hexStr n, isHexDigit c = true) ∧
    parseHexJs (hexStr n) = some n := by
  obtain ⟨h1, h2, h3⟩ := hexStrF_spec n n (Nat.le_refl n)
  exact ⟨h1, h2, by simp [hexStr, parseHexJs, h1, h3]⟩

theorem crlfIdx_prefix (a b : List Nat) (ha : ∀ c ∈ a, c ≠ 13) :
    crlfIdx (a ++ 13 :: 10 :: b) = some a.length := by
  induction a with
  | nil => simp [crlfIdx]
  | cons c a' ih =>
    have hc : c ≠ 13 := ha c (by simp)
    have ih' := ih (fun x hx => ha x (List.mem_cons_of_mem _ hx))
    cases a' with
    | nil =>
      simp only [List.nil_append] at ih'
      simp only [List.cons_append, List.nil_append, crlfIdx]
      rw [if_neg (fun hh => hc hh.1)]
      simp
    | cons c2 a'' =>
      simp only [List.cons_append] at ih' ⊢
      simp only [crlfIdx]
      rw [if_neg (fun hh => hc hh.1), ih']
      simp

theorem drop_after_crlf (a t : List Nat) :
    (a ++ 13 :: 10 :: t).drop (a.length + 2) = t := by
  rw [List.drop_append_eq_append_drop, List.drop_eq_nil_of_le (by omega),
    List.nil_append]
  have h2 : a.length + 2 - a.length = 2 := by omega
  rw [h2]
  rfl

theorem readChunkDataF_full (f : Nat) (u rest : List Nat) (s : List (List Nat))
    (hu : u ≠ []) :
    readChunkDataF (f + 1) u.length (u ++ rest) s = .ok ([u], rest, s) := by
  have hun : u.length ≠ 0 := fun hh => hu (List.length_eq_zero.mp hh)
  have hne : u ++ rest ≠ [] := by simp [hu]
  have hmin : min u.length (u ++ rest).length = u.length := by
    simp only [List.length_append]
    omega
  simp only [readChunkDataF]
  rw [if_neg hun, if_neg hne, hmin, Nat.sub_self, readChunkDataF_zero,
    List.take_left, List.drop_left]

theorem readChunkData_full (u rest : List Nat) (s : List (List Nat))
    (hu : u ≠ []) :
    readChunkData u.length (u ++ rest) s = .ok ([u], rest, s) := by
  unfold readChunkData
  exact readChunkDataF_full (u.length + s.length) u rest s hu

/-- C1.  For every byte payload produced as a sequence of non-empty units
by a body reader of unknown length (the empty payload being the empty
sequence of units), encoding the reads with `writeHTTPResp`'s chunked
encoder and decoding the resulting bytes with `readChunks` yields exactly
the original units (hence the original payload), consuming the entire
encoding. -/
theorem chunked_roundtrip (units : List (List Nat))
    (h : ∀ u ∈ units, u ≠ []) :
    decodeChunks (units.length + 1) (writeChunkedBody units) [] =
      some (.ok (units, [], [])) := by
  induction units with
  | nil => rfl
  | cons u us ih =>
    have hu : u ≠ [] := h u (by simp)
    have ih' := ih (fun x hx => h x (List.mem_cons_of_mem _ hx))
    obtain ⟨hne, hhex, hparse⟩ := hexStr_spec u.length
    have ha13 : ∀ c ∈ hexStr u.length, c ≠ 13 := by
      intro c hc
      have hcx := hhex c hc
      simp only [isHexDigit, Bool.or_eq_true, Bool.and_eq_true,
        decide_eq_true_eq] at hcx
      omega
    have hhexB : isHexB (hexStr u.length) = true := by
      rw [isHexB, List.all_eq_true]
      exact hhex
    have hform : writeChunkedBody (u :: us) =
        hexStr u.length ++ 13 :: 10 :: (u ++ 13 :: 10 :: writeChunkedBody us) := by
      simp [writeChunkedBody, hu]
    rw [hform]
    simp only [List.length_cons]
    generalize hF : us.length + 1 = F
    rw [hF] at ih'
    simp only [decodeChunks,
      crlfIdx_prefix (hexStr u.length) (u ++ 13 :: 10 :: writeChunkedBody us) ha13,
      List.take_left]
    rw [if_pos hhexB]
    simp only [hparse, Option.getD_some, drop_after_crlf,
      readChunkData_full u (13 :: 10 :: writeChunkedBody us) [] hu,
      readChunkCRLF_crlf]
    rw [if_neg (by
      intro hh
      exact hu (List.length_eq_zero.mp (Option.some.inj hh)))]
    rw [ih']
    simp

theorem chunked_roundtrip_witness :
    (∀ u ∈ [[104, 101], [108, 108, 111]], u ≠ ([] : List Nat)) ∧
    decodeChunks 3 (writeChunkedBody [[104, 101], [108, 108, 111]]) [] =
      some (.ok ([[104, 101], [108, 108, 111]], [], [])) :=
  ⟨by decide, chunked_roundtrip [[104, 101], [108, 108, 111]] (by decide)⟩

/-! ## C6 — dynamic-buffer invariants -/

theorem growCapF_ge_self (f : Nat) : ∀ cap n, cap ≤ growCapF f cap n := by
  induction f with
  | zero => intro cap n; exact Nat.le_refl cap
  | succ f ih =>
    intro cap n
    simp only [growCapF]
    by_cases h : cap < n
    · rw [if_pos h]
      exact Nat.le_trans (by omega) (ih (cap * 2) n)
    · rw [if_neg h]

theorem growCapF_ge (f : Nat) : ∀ cap n, n ≤ cap * 2 ^ f → n ≤ growCapF f cap n := by
  induction f with
  | zero =>
    intro cap n h
    simpa [growCapF] using h
  | succ f ih =>
    intro cap n h
    simp only [growCapF]
    by_cases hc : cap < n
    · rw [if_pos hc]
      apply ih
      calc n ≤ cap * 2 ^ (f + 1) := h
        _ = cap * 2 * 2 ^ f := by ring
    · rw [if_neg hc]
      omega

theorem growCap_ge (cap n : Nat) (h : 1 ≤ cap) : n ≤ growCap cap n := by
  apply growCapF_ge
  calc n ≤ 2 ^ n := Nat.le_of_lt (Nat.lt_two_pow n)
    _ = 1 * 2 ^ n := (Nat.one_mul _).symm
    _ ≤ cap * 2 ^ n := Nat.mul_le_mul_right _ h

theorem growCapF_pow (f : Nat) :
    ∀ cap n, (∃ k, cap = 32 * 2 ^ k) →
      ∃ k, growCapF f cap n = 32 * 2 ^ k := by
  induction f with
  | zero => intro cap n h; exact h
  | succ f ih =>
    intro cap n h
    simp only [growCapF]
    by_cases hc : cap < n
    · rw [if_pos hc]
      apply ih
      obtain ⟨k, hk⟩ := h
      exact ⟨k + 1, by rw [hk]; ring⟩
    · rw [if_neg hc]
      exact h

theorem writeAt_length (st : List Nat) (off : Nat) (d : List Nat)
    (h : off ≤ st.length) : (writeAt st off d).length = st.length := by
  simp only [writeAt, List.length_append, List.length_take, List.length_drop]
  omega

theorem writeAt_take (st : List Nat) (off : Nat) (d : List Nat)
    (hoff : off ≤ st.length) (h : off + d.length ≤ st.length) :
    (writeAt st off d).take (off + d.length) = st.take off ++ d := by
  simp only [writeAt]
  rw [List.take_of_length_le (l := d) (by omega)]
  exact List.take_left' (by
    simp only [List.length_append, List.length_take]
    omega)

theorem writeAt_zero_take (st r : List Nat) (h : r.length ≤ st.length) :
    (writeAt st 0 r).take r.length = r := by
  simp only [writeAt, List.take_zero, List.nil_append, Nat.sub_zero,
    Nat.zero_add]
  rw [List.take_of_length_le (l := r) h]
  exact List.take_left r _

theorem bufPop_cap (b : DynBuf) (n : Nat) :
    (bufPop b n).data.length = b.data.length := by
  simp only [bufPop, writeAt, List.length_append, List.length_take,
    List.length_drop]
  omega

theorem bufPush_inv (b : DynBuf) (q d : List Nat) (hb : bufInv b q) :
    bufInv (bufPush b d) (q ++ d) := by
  obtain ⟨hlen, htake, hle, hpow⟩ := hb
  by_cases hgrow : b.data.length < b.length + d.length
  · have hcap1 : (1 : Nat) ≤ max b.data.length 32 := by omega
    have hge : b.length + d.length ≤
        growCap (max b.data.length 32) (b.length + d.length) :=
      growCap_ge _ _ hcap1
    have hgeself : max b.data.length 32 ≤
        growCap (max b.data.length 32) (b.length + d.length) :=
      growCapF_ge_self _ _ _
    have hstlen : (b.data ++ List.replicate
        (growCap (max b.data.length 32) (b.length + d.length) - b.data.length)
        0).length = growCap (max b.data.length 32) (b.length + d.length) := by
      simp only [List.length_append, List.length_replicate]
      omega
    have hsttake : (b.data ++ List.replicate
        (growCap (max b.data.length 32) (b.length + d.length) - b.data.length)
        0).take b.length = q := by
      rw [List.take_append_of_le_length hle, htake]
    refine ⟨?_, ?_, ?_, ?_⟩
    · simp [bufPush, hlen]
    · simp only [bufPush, if_pos hgrow]
      rw [writeAt_take _ _ _ (by omega) (by omega), hsttake]
    · simp only [bufPush, if_pos hgrow]
      rw [writeAt_length _ _ _ (by omega)]
      omega
    · simp only [bufPush, if_pos hgrow]
      rw [writeAt_length _ _ _ (by omega), hstlen]
      right
      apply growCapF_pow
      rcases hpow with h0 | hk
      · exact ⟨0, by omega⟩
      · obtain ⟨k, hk⟩ := hk
        have : max b.data.length 32 = b.data.length := by
          have : 32 ≤ b.data.length := by
            rw [hk]
            have : 1 ≤ 2 ^ k := Nat.one_le_two_pow
            omega
          omega
        exact ⟨k, by omega⟩
  · have hfits : b.length + d.length ≤ b.data.length := Nat.le_of_not_lt hgrow
    refine ⟨?_, ?_, ?_, ?_⟩
    · simp [bufPush, hlen]
    · simp only [bufPush, if_neg hgrow]
      rw [writeAt_take _ _ _ (by omega) (by omega), htake]
    · simp only [bufPush, if_neg hgrow]
      rw [writeAt_length _ _ _ (by omega)]
      omega
    · simp only [bufPush, if_neg hgrow]
      rw [writeAt_length _ _ _ (by omega)]
      exact hpow

theorem bufPop_inv (b : DynBuf) (q : List Nat) (n : Nat) (hb : bufInv b q)
    (hn : n ≤ b.length) : bufInv (bufPop b n) (q.drop n) := by
  obtain ⟨hlen, htake, hle, hpow⟩ := hb
  have hreg : (b.data.take b.length).drop n = q.drop n := by rw [htake]
  have hreglen : ((b.data.take b.length).drop n).length = b.length - n := by
    simp only [List.length_drop, List.length_take]
    omega
  refine ⟨?_, ?_, ?_, ?_⟩
  · simp only [bufPop, List.length_drop]
    omega
  · show (writeAt b.data 0 ((b.data.take b.length).drop n)).take (b.length - n) =
      q.drop n
    rw [← hreglen, writeAt_zero_take _ _ (by omega), hreg]
  · simp only [bufPop]
    rw [writeAt_length _ _ _ (by omega)]
    omega
  · simp only [bufPop]
    rw [writeAt_length _ _ _ (by omega)]
    exact hpow

theorem bufPush_cap_mono (b : DynBuf) (d : List Nat)
    (hle : b.length ≤ b.data.length) :
    b.data.length ≤ (bufPush b d).data.length := by
  simp only [bufPush]
  by_cases hgrow : b.data.length < b.length + d.length
  · rw [if_pos hgrow,
      writeAt_length _ _ _ (by
        simp only [List.length_append, List.length_replicate]
        omega)]
    simp only [List.length_append, List.length_replicate]
    omega
  · rw [if_neg hgrow, writeAt_length _ _ _ (by omega)]

theorem bufInv_empty : bufInv emptyBuf [] := ⟨rfl, rfl, Nat.le_refl 0, Or.inl rfl⟩

theorem applyOps_append (b : DynBuf) (l1 l2 : List BufOp) :
    applyOps b (l1 ++ l2) = applyOps (applyOps b l1) l2 :=
  List.foldl_append _ _ _ _

theorem applyOps_inv_mono (ops : List BufOp) :
    ∀ b q, bufInv b q → validOpsB b ops = true →
      bufInv (applyOps b ops) (queueModel q ops) ∧
      b.data.length ≤ (applyOps b ops).data.length := by
  induction ops with
  | nil => intro b q hb _; exact ⟨hb, Nat.le_refl _⟩
  | cons op rest ih =>
    intro b q hb hv
    cases op with
    | push d =>
      simp only [validOpsB] at hv
      have hb' := bufPush_inv b q d hb
      have hrec := ih (bufPush b d) (q ++ d) hb' hv
      exact ⟨hrec.1, Nat.le_trans (bufPush_cap_mono b d hb.2.2.1) hrec.2⟩
    | pop n =>
      simp only [validOpsB, Bool.and_eq_true, decide_eq_true_eq] at hv
      obtain ⟨hn, hv'⟩ := hv
      have hb' := bufPop_inv b q n hb hn
      have hrec := ih (bufPop b n) (q.drop n) hb' hv'
      exact ⟨hrec.1, Nat.le_trans (Nat.le_of_eq (bufPop_cap b n).symm) hrec.2⟩

theorem validOpsB_append_left (ops1 ops2 : List BufOp) :
    ∀ b, validOpsB b (ops1 ++ ops2) = true → validOpsB b ops1 = true := by
  induction ops1 with
  | nil => intro b _; rfl
  | cons op rest ih =>
    intro b hv
    cases op with
    | push d =>
      simp only [List.cons_append, validOpsB] at hv ⊢
      exact ih _ hv
    | pop n =>
      simp only [List.cons_append, validOpsB, Bool.and_eq_true] at hv ⊢
      exact ⟨hv.1, ih _ hv.2⟩

theorem validOpsB_append_right (ops1 ops2 : List BufOp) :
    ∀ b, validOpsB b (ops1 ++ ops2) = true →
      validOpsB (applyOps b ops1) ops2 = true := by
  induction ops1 with
  | nil => intro b hv; exact hv
  | cons op rest ih =>
    intro b hv
    cases op with
    | push d =>
      simp only [List.cons_append, validOpsB] at hv
      exact ih _ hv
    | pop n =>
      simp only [List.cons_append, validOpsB, Bool.and_eq_true] at hv
      exact ih _ hv.2

/-- C6.  For every valid sequence of `bufPush`/`bufPop` operations from the
empty buffer: `length ≤ capacity` always holds; the capacity is 0 (never
grown) or a power of two of the form `32·2^k`; the live bytes `take length`
are exactly the queue semantics of the operations (append at the back,
consume at the front — so after `bufPop n` the remaining bytes sit at
offset 0); the capacity never decreases along the sequence and is ≥ every
`length` ever reached; and each `bufPop n` decrements `length` by `n` and
shifts the remaining bytes of the live region to offset 0. -/
theorem dynbuf_ops_spec (ops : List BufOp)
    (hv : validOpsB emptyBuf ops = true) :
    ((applyOps emptyBuf ops).length ≤ (applyOps emptyBuf ops).data.length) ∧
    ((applyOps emptyBuf ops).data.length = 0 ∨
      ∃ k, (applyOps emptyBuf ops).data.length = 32 * 2 ^ k) ∧
    ((applyOps emptyBuf ops).data.take (applyOps emptyBuf ops).length =
      queueModel [] ops) ∧
    ((applyOps emptyBuf ops).length = (queueModel [] ops).length) ∧
    (∀ pre post, ops = pre ++ post →
      (applyOps emptyBuf pre).data.length ≤
        (applyOps emptyBuf ops).data.length ∧
      (applyOps emptyBuf pre).length ≤ (applyOps emptyBuf ops).data.length) ∧
    (∀ pre n post, ops = pre ++ BufOp.pop n :: post →
      (applyOps emptyBuf (pre ++ [BufOp.pop n])).length =
        (applyOps emptyBuf pre).length - n ∧
      (applyOps emptyBuf (pre ++ [BufOp.pop n])).data.take
          ((applyOps emptyBuf pre).length - n) =
        ((applyOps emptyBuf pre).data.take
          (applyOps emptyBuf pre).length).drop n) := by
  obtain ⟨⟨hlen, htake, hle, hpow⟩, _⟩ :=
    applyOps_inv_mono ops emptyBuf [] bufInv_empty hv
  refine ⟨hle, hpow, htake, hlen, ?_, ?_⟩
  · intro pre post hsplit
    subst hsplit
    have hvpre := validOpsB_append_left pre post emptyBuf hv
    have hpre := applyOps_inv_mono pre emptyBuf [] bufInv_empty hvpre
    have hvpost := validOpsB_append_right pre post emptyBuf hv
    have hpost := applyOps_inv_mono post (applyOps emptyBuf pre)
      (queueModel [] pre) hpre.1 hvpost
    have hcap : (applyOps emptyBuf pre).data.length ≤
        (applyOps emptyBuf (pre ++ post)).data.length := by
      rw [applyOps_append]
      exact hpost.2
    exact ⟨hcap, Nat.le_trans hpre.1.2.2.1 hcap⟩
  · intro pre n post hsplit
    subst hsplit
    have hvpre := validOpsB_append_left pre (BufOp.pop n :: post) emptyBuf hv
    have hpre := applyOps_inv_mono pre emptyBuf [] bufInv_empty hvpre
    have hvpost := validOpsB_append_right pre (BufOp.pop n :: post) emptyBuf hv
    have hn : n ≤ (applyOps emptyBuf pre).length := by
      simp only [validOpsB, Bool.and_eq_true, decide_eq_true_eq] at hvpost
      exact hvpost.1
    have hpop := bufPop_inv (applyOps emptyBuf pre) (queueModel [] pre) n
      hpre.1 hn
    have happ : applyOps emptyBuf (pre ++ [BufOp.pop n]) =
        bufPop (applyOps emptyBuf pre) n := by
      rw [applyOps_append]
      rfl
    constructor
    · rw [happ]
      rfl
    · rw [happ]
      have h1 := hpop.2.1
      rw [← hpre.1.2.1] at h1
      exact h1

theorem dynbuf_ops_spec_witness :
    validOpsB emptyBuf [BufOp.push (List.replicate 33 7), BufOp.pop 5,
      BufOp.push [1, 2, 3]] = true ∧
    ((applyOps emptyBuf [BufOp.push (List.replicate 33 7), BufOp.pop 5,
        BufOp.push [1, 2, 3]]).length ≤
      (applyOps emptyBuf [BufOp.push (List.replicate 33 7), BufOp.pop 5,
        BufOp.push [1, 2, 3]]).data.length) ∧
    ((applyOps emptyBuf [BufOp.push (List.replicate 33 7), BufOp.pop 5,
        BufOp.push [1, 2, 3]]).data.length = 0 ∨
      ∃ k, (applyOps emptyBuf [BufOp.push (List.replicate 33 7), BufOp.pop 5,
        BufOp.push [1, 2, 3]]).data.length = 32 * 2 ^ k) ∧
    ((applyOps emptyBuf [BufOp.push (List.replicate 33 7), BufOp.pop 5,
        BufOp.push [1, 2, 3]]).data.take
        (applyOps emptyBuf [BufOp.push (List.replicate 33 7), BufOp.pop 5,
          BufOp.push [1, 2, 3]]).length =
      queueModel [] [BufOp.push (List.replicate 33 7), BufOp.pop 5,
        BufOp.push [1, 2, 3]]) :=
  ⟨by decide,
    (dynbuf_ops_spec _ (by decide)).1,
    (dynbuf_ops_spec _ (by decide)).2.1,
    (dynbuf_ops_spec _ (by decide)).2.2.1⟩

end BuildYourOwn
